import Mathlib

/-!
Verification of the Data-Dashboard-Boilerplate chart/export core.

This file shallowly embeds the JavaScript source of the dashboard
(chart card range filtering, line-chart zoom reporting, page
aggregators, CSV serialization, PNG export guards, chart render
guards, and the trade store filter state) as executable Lean
definitions, and proves or refutes the frozen specification claims
about them.

Conventions used throughout:
  * JS numbers are modelled as rationals (`ℚ`); the line chart x axis
    is modelled with integer values (`ℤ`), following the component
    contract stated in the LineChart source (x values are years or
    indices; tooltip snapping assumes integer x values).
  * JS objects used as flat rows are association lists or fixed
    structures mirroring the normalized dataset schema.
  * Fallible or silently-aborting code paths return `Option` or a
    dedicated result inductive; totality of the Lean functions models
    the absence of thrown exceptions.
-/

namespace Dashboard

/-! ## Trade store (src/stores: tradeStore.js)

The Zustand store holds four dataset arrays, loading and error flags,
and a filter mapping with six keys.  `setFilter` spreads the previous
filter object and overwrites one key; `resetFilters` replaces the
filter object with all-empty strings.  Zustand `set` merges at the top
level, leaving unnamed state properties untouched. -/

/-- One normalized dataset row, mirroring the columns produced by the
store normalization (`Year` via parseLooseYear, string columns via
normalizeText collapsing empties to null, `TradeValue` via
parseLooseNumber which always yields a number). -/
structure TradeRow where
  Year : Option ℤ
  TradeType : Option String
  Mode : Option String
  State : Option String
  CommodityGroup : Option String
  POE : Option String
  TradeValue : ℚ
deriving DecidableEq, Repr

/-- The six filter keys of the store filter object. -/
inductive FilterKey
  | year | tradeType | mode | state | commodityGroup | port
deriving DecidableEq, Repr

/-- The store filter mapping: filter key to selected value, the empty
string meaning no restriction. -/
structure Filters where
  year : String
  tradeType : String
  mode : String
  state : String
  commodityGroup : String
  port : String
deriving DecidableEq, Repr

/-- Read one filter key from the filter mapping. -/
def Filters.get (f : Filters) : FilterKey → String
  | .year => f.year
  | .tradeType => f.tradeType
  | .mode => f.mode
  | .state => f.state
  | .commodityGroup => f.commodityGroup
  | .port => f.port

/-- The filter object installed by `resetFilters` (all keys empty). -/
def emptyFilters : Filters :=
  { year := "", tradeType := "", mode := "", state := "", commodityGroup := "", port := "" }

/-- The full trade store state: four dataset arrays (null before
loading), loading and error flags, and the filter mapping. -/
structure TradeStoreState where
  usAggregated : Option (List TradeRow)
  txBorderPorts : Option (List TradeRow)
  btsUsState : Option (List TradeRow)
  masterData : Option (List TradeRow)
  loading : Bool
  error : Option String
  filters : Filters
deriving DecidableEq, Repr

/-- The spread `{ ...state.filters, [key]: value }` of `setFilter`. -/
def Filters.set (f : Filters) : FilterKey → String → Filters
  | .year, v => { f with year := v }
  | .tradeType, v => { f with tradeType := v }
  | .mode, v => { f with mode := v }
  | .state, v => { f with state := v }
  | .commodityGroup, v => { f with commodityGroup := v }
  | .port, v => { f with port := v }

/-- Store action `setFilter(key, value)`: replaces the filter object
with a copy in which one key is overwritten; Zustand merges the
result into the state, leaving every other property unchanged. -/
def setFilter (s : TradeStoreState) (k : FilterKey) (v : String) : TradeStoreState :=
  { s with filters := s.filters.set k v }

/-- Store action `resetFilters()`: replaces the filter object with the
all-empty mapping, leaving every other property unchanged. -/
def resetFilters (s : TradeStoreState) : TradeStoreState :=
  { s with filters := emptyFilters }

/-! ## Line chart data and zoom enablement (LineChart source)

`data` is a flat array of points with a numeric x field, numeric y
field, and an optional series discriminator.  Zoom is configured only
when `maxZoom > 1`, where
`maxZoom = uniqueX > 3 ? Math.ceil(uniqueX / 3) : 1`. -/

/-- One line-chart datum: x value (integer, per the component
contract), y value, and the series discriminator value. -/
structure Point where
  x : ℤ
  y : ℚ
  series : String
deriving DecidableEq, Repr

/-- The count `new Set(data.map((d) => d[xKey])).size` of distinct
x values in the data. -/
def distinctXCount (data : List Point) : ℕ :=
  (data.map Point.x).dedup.length

/-- The zoom factor cap
`uniqueX > 3 ? Math.ceil(uniqueX / 3) : 1`; `(u + 2) / 3` is the
ceiling of `u / 3` in natural division. -/
def maxZoom (u : ℕ) : ℕ :=
  if 3 < u then (u + 2) / 3 else 1

/-- Zoom is wired to the overlay only inside `if (maxZoom > 1)`. -/
def zoomEnabled (data : List Point) : Bool :=
  1 < maxZoom (distinctXCount data)

/-! ## Linear scales, the d3 zoom transform, and the zoom handler -/

/-- A d3 linear scale with domain `[d0, d1]` and range `[r0, r1]`. -/
structure LinScale where
  d0 : ℚ
  d1 : ℚ
  r0 : ℚ
  r1 : ℚ
deriving DecidableEq, Repr

/-- Inverse mapping of a linear scale (`scale.invert(p)`). -/
def LinScale.invert (s : LinScale) (p : ℚ) : ℚ :=
  s.d0 + (p - s.r0) / (s.r1 - s.r0) * (s.d1 - s.d0)

/-- A d3 zoom transform: scale factor `k` and x translation `tx`. -/
structure ZoomTransform where
  k : ℚ
  tx : ℚ
deriving DecidableEq, Repr

/-- The transform inverse on x (`transform.invertX(p) = (p - tx) / k`). -/
def ZoomTransform.invertX (t : ZoomTransform) (p : ℚ) : ℚ :=
  (p - t.tx) / t.k

/-- d3 `transform.rescaleX(x0)`: a copy of `x0` whose domain is the
image of the range endpoints under `invertX` then `x0.invert`. -/
def rescaleX (t : ZoomTransform) (s : LinScale) : LinScale :=
  { d0 := s.invert (t.invertX s.r0)
    d1 := s.invert (t.invertX s.r1)
    r0 := s.r0
    r1 := s.r1 }

/-- The first fold of `d3.extent`: the minimum x value of the data. -/
def extentMin (x0 : ℤ) (xs : List ℤ) : ℤ :=
  xs.foldl min x0

/-- The second fold of `d3.extent`: the maximum x value of the data. -/
def extentMax (x0 : ℤ) (xs : List ℤ) : ℤ :=
  xs.foldl max x0

/-- The unzoomed line-chart x scale: domain `d3.extent` of the data x
values, range `[0, innerW]`; defined for nonempty data. -/
def lineChartXScale (p0 : Point) (rest : List Point) (innerW : ℚ) : LinScale :=
  { d0 := (extentMin p0.x (rest.map Point.x) : ℚ)
    d1 := (extentMax p0.x (rest.map Point.x) : ℚ)
    r0 := 0
    r1 := innerW }

/-- The visible-range payload reported to the chart card:
`{ xKey, min, max }`. -/
structure ZoomRange where
  xKey : String
  min : ℤ
  max : ℤ
deriving DecidableEq, Repr

/-- The range emission of the zoom handler: when zoomed (`k > 1`) the
rescaled domain is reported as `{ xKey, min: ceil(domain[0]),
max: floor(domain[1]) }`, otherwise the null range is reported. -/
def zoomEmission (xKey : String) (t : ZoomTransform) (x0 : LinScale) : Option ZoomRange :=
  if 1 < t.k then
    some { xKey := xKey
           min := ⌈(rescaleX t x0).d0⌉
           max := ⌊(rescaleX t x0).d1⌋ }
  else none

/-- The observable outcome of one zoom event: the updated current x
scale used for redrawing, the tooltip and reset-button visibility,
and the value handed to the context listener (`none` when no listener
is registered, `some r` when `setZoomRange` was called with `r`). -/
structure ZoomUpdateResult where
  currentX : LinScale
  tooltipHidden : Bool
  resetBtnShown : Bool
  emitted : Option (Option ZoomRange)
deriving DecidableEq, Repr

/-- The zoom event handler: rescales the x scale, hides the tooltip,
shows the reset button while `k > 1`, and — only when a context
listener is registered — calls it with the emission.  Totality of
this definition models that the handler neither returns a value nor
throws. -/
def zoomHandler (hasListener : Bool) (xKey : String) (x0 : LinScale)
    (t : ZoomTransform) : ZoomUpdateResult :=
  { currentX := rescaleX t x0
    tooltipHidden := true
    resetBtnShown := 1 < t.k
    emitted := if hasListener then some (zoomEmission xKey t x0) else none }

/-! ## Tooltip (LineChart overlay mousemove / mouseleave) -/

/-- A processed series: its discriminator value and its points sorted
by x (the sort is irrelevant to the tooltip model). -/
structure SeriesData where
  name : String
  values : List Point
deriving DecidableEq, Repr

/-- The visible state of the line-chart tooltip. -/
inductive TooltipState
  | hidden
  | shown (xVal : ℤ) (entries : List (String × ℚ))
deriving DecidableEq, Repr

/-- The per-series lookup of the mousemove handler: for each series,
`s.values.find((d) => d[xKey] === xVal)` contributes the series name
and the y value of the first point at the snapped x. -/
def tooltipEntriesAt (series : List SeriesData) (xVal : ℤ) : List (String × ℚ) :=
  series.filterMap fun s =>
    (s.values.find? (fun d => d.x == xVal)).map fun p => (s.name, p.y)

/-- The mousemove handler: snap `xVal = Math.round(currentX.invert(mx))`,
collect the series points at `xVal`, hide the tooltip when none
exists, otherwise show all series values at `xVal`. -/
def mousemoveTooltip (currentX : LinScale) (series : List SeriesData)
    (mx : ℚ) : TooltipState :=
  let xVal : ℤ := round (currentX.invert mx)
  let points := tooltipEntriesAt series xVal
  if points.isEmpty then .hidden else .shown xVal points

/-- The mouseleave handler always hides the tooltip. -/
def mouseleaveTooltip : TooltipState := .hidden

/-- Modelled from the spec (the claim wording): among the x values
present in the data, the one nearest to the pointer domain position
`q`, ties broken toward the earlier value.  Used only to state the
counterexample against the snapping claim. -/
def nearestDataX (xs : List ℤ) (q : ℚ) : Option ℤ :=
  match xs with
  | [] => none
  | x :: rest => some (rest.foldl (fun (b a : ℤ) => if |(a : ℚ) - q| < |(b : ℚ) - q| then a else b) x)

/-! ## Chart card: range-scoped download filtering (ChartCard source) -/

/-- One download array row: a flat object whose fields relevant to
range filtering are numeric. -/
abbrev DlRow := List (String × ℚ)

/-- JS property read `row[k]`: the first binding of `k`, or undefined. -/
def rowGet (r : DlRow) (k : String) : Option ℚ :=
  match r with
  | [] => none
  | (k₂, v) :: rest => if k₂ = k then some v else rowGet rest k

/-- The capitalized variant
`xKey.charAt(0).toUpperCase() + xKey.slice(1)`. -/
def capitalizeKey (k : String) : String :=
  match k.data with
  | [] => k
  | c :: cs => String.mk (c.toUpper :: cs)

/-- The key resolution of `filterArr`: try the exact `xKey` on the
first row, then the capitalized variant, else give up. -/
def resolveKey (r0 : DlRow) (xKey : String) : Option String :=
  if (rowGet r0 xKey).isSome then some xKey
  else if (rowGet r0 (capitalizeKey xKey)).isSome then some (capitalizeKey xKey)
  else none

/-- The `filterArr` helper of `effectiveDownloadData`: empty arrays
pass through; otherwise the resolved axis key selects rows with
`d[key] >= min && d[key] <= max` (a missing field compares false);
with no resolvable key the array passes through unfiltered. -/
def filterArr (xKey : String) (mn mx : ℚ) (arr : List DlRow) : List DlRow :=
  match arr with
  | [] => arr
  | r0 :: _ =>
    match resolveKey r0 xKey with
    | none => arr
    | some k =>
      arr.filter fun d =>
        match rowGet d k with
        | some v => decide (mn ≤ v) && decide (v ≤ mx)
        | none => false

/-- One entry of the download payload: a data array and a filename. -/
structure DlEntry where
  data : List DlRow
  filename : String
deriving DecidableEq, Repr

/-- The download payload `{ summary?, detail? }`. -/
structure DlData where
  summary : Option DlEntry
  detail : Option DlEntry
deriving DecidableEq, Repr

/-- Apply `filterArr` to one optional payload entry. -/
def filterEntry (z : ZoomRange) (e : DlEntry) : DlEntry :=
  { e with data := filterArr z.xKey (z.min : ℚ) (z.max : ℚ) e.data }

/-- The `effectiveDownloadData` memo of the chart card: absent payload
or absent visible range pass the payload through; otherwise both
arrays are filtered to the visible range. -/
def effectiveDownloadData (dd : Option DlData) (zr : Option ZoomRange) : Option DlData :=
  match dd, zr with
  | none, _ => none
  | some d, none => some d
  | some d, some z =>
    some { summary := d.summary.map (filterEntry z)
           detail := d.detail.map (filterEntry z) }

/-! ## Page aggregators (HomePage modeData, aiClient groupAndSum,
applyFilters, sumTradeValue)

The aggregators accumulate into a JS `Map` (insertion-ordered, keys
unique) and sort the resulting `{label, value}` array by value
descending. -/

/-- The grouping columns used with `groupAndSum(data, key)` and the
page aggregators. -/
inductive GroupKey
  | mode | state | commodityGroup | poe | tradeType
deriving DecidableEq, Repr

/-- Dynamic string-column access `d[key]` on a normalized row. -/
def TradeRow.getStr (d : TradeRow) : GroupKey → Option String
  | .mode => d.Mode
  | .state => d.State
  | .commodityGroup => d.CommodityGroup
  | .poe => d.POE
  | .tradeType => d.TradeType

/-- JS falsiness of a (possibly missing) string label: null,
undefined and the empty string are falsy. -/
def falsyLabel : Option String → Bool
  | none => true
  | some s => s.isEmpty

/-- `map.get(label) || 0` on an insertion-ordered association list. -/
def mapGet (m : List (String × ℚ)) (k : String) : ℚ :=
  match m with
  | [] => 0
  | (k₂, v) :: rest => if k₂ = k then v else mapGet rest k

/-- `map.set(label, v)`: overwrite the existing binding in place or
append a new one (JS Map keeps insertion order). -/
def mapSet (m : List (String × ℚ)) (k : String) (v : ℚ) : List (String × ℚ) :=
  match m with
  | [] => [(k, v)]
  | (k₂, v₂) :: rest => if k₂ = k then (k, v) :: rest else (k₂, v₂) :: mapSet rest k v

/-- Insert into a value-descending sorted list, keeping equal values
in arrival order (JS `Array.sort` with comparator
`(a, b) => b.value - a.value` is stable). -/
def insertByValueDesc (x : String × ℚ) : List (String × ℚ) → List (String × ℚ)
  | [] => [x]
  | y :: ys => if y.2 < x.2 then x :: y :: ys else y :: insertByValueDesc x ys

/-- Sort `{label, value}` pairs by value descending. -/
def sortByValueDesc : List (String × ℚ) → List (String × ℚ)
  | [] => []
  | x :: xs => insertByValueDesc x (sortByValueDesc xs)

/-- One accumulation step shared by the aggregators: skip rows with a
falsy label, otherwise `map.set(label, (map.get(label) || 0) + (d.TradeValue || 0))`.
Normalized rows always carry a numeric `TradeValue`, so `|| 0` is the
identity. -/
def groupStep (label : Option String) (v : ℚ) (m : List (String × ℚ)) : List (String × ℚ) :=
  match label with
  | none => m
  | some l => if l.isEmpty then m else mapSet m l (mapGet m l + v)

/-- The aiClient helper `groupAndSum(data, key)`: accumulate trade
values per label and sort descending by value. -/
def groupAndSum (data : List TradeRow) (key : GroupKey) : List (String × ℚ) :=
  sortByValueDesc (data.foldl (fun m d => groupStep (d.getStr key) d.TradeValue m) [])

/-- The HomePage `modeData` memo: group the `usAggregated` rows by
`Mode` (skipping rows with a falsy `Mode`) and sort descending. -/
def modeData (usAggregated : List TradeRow) : List (String × ℚ) :=
  sortByValueDesc (usAggregated.foldl (fun m d => groupStep d.Mode d.TradeValue m) [])

/-- A filter combination as taken by the aiClient `applyFilters`
helper (absent entries mean no restriction). -/
structure QueryFilters where
  year : Option ℤ
  tradeType : Option String
  mode : Option String
  state : Option String
  commodityGroup : Option String
  port : Option String
deriving DecidableEq, Repr

/-- The empty filter combination. -/
def noFilters : QueryFilters :=
  { year := none, tradeType := none, mode := none, state := none
    commodityGroup := none, port := none }

/-- The aiClient `applyFilters(data, filters)`: each active filter key
must match the row field exactly (a null row field never matches). -/
def applyFilters (data : List TradeRow) (f : QueryFilters) : List TradeRow :=
  data.filter fun d =>
    (match f.year with | some y => decide (d.Year = some y) | none => true) &&
    (match f.tradeType with | some t => decide (d.TradeType = some t) | none => true) &&
    (match f.mode with | some m => decide (d.Mode = some m) | none => true) &&
    (match f.state with | some s => decide (d.State = some s) | none => true) &&
    (match f.commodityGroup with | some c => decide (d.CommodityGroup = some c) | none => true) &&
    (match f.port with | some p => decide (d.POE = some p) | none => true)

/-- The aiClient `sumTradeValue(data)`:
`data.reduce((sum, d) => sum + (d.TradeValue || 0), 0)`. -/
def sumTradeValue (data : List TradeRow) : ℚ :=
  data.foldl (fun s d => s + d.TradeValue) 0

/-- The total of an aggregated `{label, value}` series. -/
def seriesTotal (series : List (String × ℚ)) : ℚ :=
  series.foldl (fun s p => s + p.2) 0

/-! ## CSV serialization (downloadCsv) and a quote-respecting parser

`downloadCsv` derives the column order from the first row, escapes
fields per RFC4180 (quote when the field contains a comma, quote, CR
or LF; double embedded quotes), joins records with LF, and prepends a
byte-order mark.  The parser splits the character stream on commas
and newlines while respecting quotes, with doubled quotes inside a
quoted field decoding to one quote. -/

/-- A CSV source row: ordered fields of a flat object whose values
are strings (serialization stringifies every non-null value). -/
abbrev CsvRow := List (String × String)

/-- JS `row[k]` followed by the `v == null` guard of `downloadCsv`: a
missing field serializes as the empty string. -/
def csvCell (r : CsvRow) (k : String) : String :=
  match r with
  | [] => ""
  | (k₂, v) :: rest => if k₂ = k then v else csvCell rest k

/-- Character-level test of the quoting regex `/[,"\n\r]/`. -/
def isCsvSpecial (c : Char) : Bool :=
  c = ',' || c = '"' || c = '\n' || c = '\r'

/-- The replacement `str.replace(/"/g, String.fromCharCode(34, 34))`
that doubles every quote of a field. -/
def csvDoubleQuotes : List Char → List Char
  | [] => []
  | c :: cs => if c = '"' then '"' :: '"' :: csvDoubleQuotes cs else c :: csvDoubleQuotes cs

/-- Field escaping of `downloadCsv`: wrap in quotes (doubling embedded
quotes) exactly when the field contains a comma, quote, CR or LF. -/
def csvEscapeField (s : List Char) : List Char :=
  if s.any isCsvSpecial then '"' :: (csvDoubleQuotes s ++ ['"']) else s

/-- Join character-lists with a separator character (`Array.join`). -/
def joinWith (sep : Char) : List (List Char) → List Char
  | [] => []
  | [f] => f
  | f :: fs => f ++ sep :: joinWith sep fs

/-- One serialized record: escaped fields joined by commas. -/
def csvRecordLine (fields : List (List Char)) : List Char :=
  joinWith ',' (fields.map csvEscapeField)

/-- The field values of one row in first-row column order. -/
def csvRowCells (keys : List String) (r : CsvRow) : List (List Char) :=
  keys.map fun k => (csvCell r k).data

/-- The CSV body `[header, ...rows].join(String.fromCharCode(10))` of
`downloadCsv` for nonempty data: the header is `keys.join(',')` with
no escaping, then one escaped record per row. -/
def csvBody (r0 : CsvRow) (rest : List CsvRow) : List Char :=
  let keys := r0.map Prod.fst
  joinWith '\n'
    (joinWith ',' ((keys.map String.data)) ::
      (r0 :: rest).map fun r => csvRecordLine (csvRowCells keys r))

/-- The full `downloadCsv(data)` output: a silent no-op (none) on an
empty or absent array, otherwise the BOM-prefixed CSV text handed to
the blob download. -/
def downloadCsv (data : List CsvRow) : Option (List Char) :=
  match data with
  | [] => none
  | r0 :: rest => some (Char.ofNat 0xFEFF :: csvBody r0 rest)

mutual

/-- Quote-respecting CSV parse, outside-quotes state: a comma closes
the field, a newline closes the record, a quote enters quoted state,
anything else extends the field. -/
def parseCsvOut (cs : List Char) (field : List Char)
    (rec : List (List Char)) : List (List (List Char)) :=
  match cs with
  | [] => [rec ++ [field]]
  | c :: rest =>
    if c = ',' then parseCsvOut rest [] (rec ++ [field])
    else if c = '\n' then (rec ++ [field]) :: parseCsvOut rest [] []
    else if c = '"' then parseCsvIn rest field rec
    else parseCsvOut rest (field ++ [c]) rec
termination_by cs.length

/-- Quote-respecting CSV parse, inside-quotes state: a doubled quote
decodes to one quote, a single quote leaves quoted state, anything
else (commas and newlines included) extends the field. -/
def parseCsvIn (cs : List Char) (field : List Char)
    (rec : List (List Char)) : List (List (List Char)) :=
  match cs with
  | [] => [rec ++ [field]]
  | c :: rest =>
    if c = '"' then
      match rest with
      | [] => parseCsvOut [] field rec
      | c₂ :: rest₂ =>
        if c₂ = '"' then parseCsvIn rest₂ (field ++ ['"']) rec
        else parseCsvOut (c₂ :: rest₂) field rec
    else parseCsvIn rest (field ++ [c]) rec
termination_by cs.length

end

/-- Parse a whole CSV character stream into records of fields. -/
def parseCsv (cs : List Char) : List (List (List Char)) :=
  parseCsvOut cs [] []

/-! ## PNG export (exportChartPng) -/

/-- The outcome of `exportChartPng`: silently return when the
container holds no SVG; warn and abort on zero measured dimensions or
a failed image decode; otherwise trigger the PNG download from the
2x-scaled canvas.  Totality models that no exception escapes. -/
inductive PngExportResult
  | noSvg
  | warnedZeroDims
  | warnedDecodeFailed
  | downloaded (pxWidth pxHeight : ℚ)
deriving DecidableEq, Repr

/-- The measured source of an export: the SVG bounding box when a SVG
child exists, and whether the serialized SVG decodes as an image. -/
structure PngExportInput where
  svgSize : Option (ℚ × ℚ)
  decodeOk : Bool
deriving DecidableEq, Repr

/-- The canvas pixel width for source width `w`: padding on both
sides, doubled by the 2x scale. -/
def pngCanvasWidth (w : ℚ) : ℚ := (w + 20 * 2) * 2

/-- The canvas pixel height for source height `h` with an optional
title and subtitle header. -/
def pngCanvasHeight (h : ℚ) (title subtitle : Bool) : ℚ :=
  let headerHeight : ℚ :=
    (if title then 18 * (13 : ℚ) / 10 else 0) +
    (if subtitle then 13 * (14 : ℚ) / 10 else 0) +
    (if title || subtitle then 12 else 0)
  (h + 20 * 2 + headerHeight) * 2

/-- The control flow of `exportChartPng`: missing SVG returns
silently; `!width || !height` warns and aborts; `img.onerror` warns
and aborts; `img.onload` draws and downloads. -/
def exportChartPng (input : PngExportInput) (title subtitle : Bool) : PngExportResult :=
  match input.svgSize with
  | none => .noSvg
  | some (w, h) =>
    if w = 0 ∨ h = 0 then .warnedZeroDims
    else if input.decodeOk then
      .downloaded (pngCanvasWidth w) (pngCanvasHeight h title subtitle)
    else .warnedDecodeFailed


/-! ## Chart render guards (all five chart renderers)

Every renderer begins its effect with
`if (!data.length || !width) return` (StackedBarChart additionally
bails on an empty stack-key list), returning before any SVG mutation.
The SVG children are modelled as an abstract node list; a render
effect maps the previous children to the next ones. -/

/-- A minimal model of an SVG child node: a kind tag and children. -/
inductive SvgNode
  | node (kind : String) (children : List SvgNode)

/-- Bar chart drawing body (one rect per displayed datum, capped at
`maxBars`, inside the translated group). -/
def barChartDraw (data : List (String × ℚ)) (maxBars : ℕ) : List SvgNode :=
  [.node "g" ((data.take maxBars).map (fun _ => .node "rect" []))]

/-- Bar chart render effect: the guard returns before touching the
SVG; past the guard the previous children are removed and the chart
is drawn. -/
def barChartRender (data : List (String × ℚ)) (width : ℚ) (maxBars : ℕ)
    (prev : List SvgNode) : List SvgNode :=
  if data.length = 0 ∨ width = 0 then prev else barChartDraw data maxBars

/-- Line chart drawing body (clipped content group with one path per
series plus one dot per datum, axes group). -/
def lineChartDraw (data : List Point) : List SvgNode :=
  [.node "g"
    [.node "g" ((data.map Point.series).dedup.map (fun _ => .node "path" [])),
     .node "g" (data.map (fun _ => .node "circle" []))]]

/-- Line chart render effect with its leading guard. -/
def lineChartRender (data : List Point) (width : ℚ)
    (prev : List SvgNode) : List SvgNode :=
  if data.length = 0 ∨ width = 0 then prev else lineChartDraw data

/-- Donut chart drawing body (one arc path per datum). -/
def donutChartDraw (data : List (String × ℚ)) : List SvgNode :=
  [.node "g" (data.map (fun _ => .node "path" []))]

/-- Donut chart render effect with its leading guard. -/
def donutChartRender (data : List (String × ℚ)) (width : ℚ)
    (prev : List SvgNode) : List SvgNode :=
  if data.length = 0 ∨ width = 0 then prev else donutChartDraw data

/-- Treemap drawing body (one cell group per datum). -/
def treemapChartDraw (data : List (String × ℚ)) : List SvgNode :=
  [.node "g" (data.map (fun _ => .node "g" [.node "rect" []]))]

/-- Treemap render effect with its leading guard. -/
def treemapChartRender (data : List (String × ℚ)) (width : ℚ)
    (prev : List SvgNode) : List SvgNode :=
  if data.length = 0 ∨ width = 0 then prev else treemapChartDraw data

/-- Stacked bar drawing body (one layer group per stack key, each
with one rect per row). -/
def stackedBarChartDraw (data : List (List ℚ)) (stackKeys : List String) : List SvgNode :=
  [.node "g" (stackKeys.map (fun _ => .node "g" (data.map (fun _ => .node "rect" []))))]

/-- Stacked bar render effect: its guard also bails when the stack
key list is empty. -/
def stackedBarChartRender (data : List (List ℚ)) (width : ℚ) (stackKeys : List String)
    (prev : List SvgNode) : List SvgNode :=
  if data.length = 0 ∨ width = 0 ∨ stackKeys.length = 0 then prev
  else stackedBarChartDraw data stackKeys


/-! # Theorems -/

/-! ## C10: store filter frame conditions -/

/-- C10: for every store state and every filter key, `setFilter`
changes only that filter key to the given value, leaving every other
filter key, the four dataset arrays, and the loading and error flags
unchanged; `resetFilters` empties all six filter keys and changes
nothing else. -/
theorem store_setFilter_resetFilters_frame (s : TradeStoreState) (k : FilterKey) (v : String) :
    (setFilter s k v).filters.get k = v ∧
    (∀ k₂, k₂ ≠ k → (setFilter s k v).filters.get k₂ = s.filters.get k₂) ∧
    (setFilter s k v).usAggregated = s.usAggregated ∧
    (setFilter s k v).txBorderPorts = s.txBorderPorts ∧
    (setFilter s k v).btsUsState = s.btsUsState ∧
    (setFilter s k v).masterData = s.masterData ∧
    (setFilter s k v).loading = s.loading ∧
    (setFilter s k v).error = s.error ∧
    (∀ k₂, (resetFilters s).filters.get k₂ = "") ∧
    (resetFilters s).usAggregated = s.usAggregated ∧
    (resetFilters s).txBorderPorts = s.txBorderPorts ∧
    (resetFilters s).btsUsState = s.btsUsState ∧
    (resetFilters s).masterData = s.masterData ∧
    (resetFilters s).loading = s.loading ∧
    (resetFilters s).error = s.error := by
  refine ⟨?_, ?_, rfl, rfl, rfl, rfl, rfl, rfl, ?_, rfl, rfl, rfl, rfl, rfl, rfl⟩
  · cases k <;> rfl
  · intro k₂ hne
    cases k <;> cases k₂ <;> simp_all [setFilter, Filters.set, Filters.get]
  · intro k₂
    cases k₂ <;> rfl

/-- Witness for C10 at a concrete store state, key and other key. -/
theorem store_setFilter_resetFilters_frame_witness :
    FilterKey.mode ≠ FilterKey.year ∧
    (setFilter
      { usAggregated := some [], txBorderPorts := none, btsUsState := none,
        masterData := none, loading := false, error := none,
        filters := emptyFilters } .year "2024").filters.get .mode =
      ({ usAggregated := some [], txBorderPorts := none, btsUsState := none,
         masterData := none, loading := false, error := none,
         filters := emptyFilters } : TradeStoreState).filters.get .mode :=
  ⟨by decide,
   (store_setFilter_resetFilters_frame _ .year "2024").2.1 .mode (by decide)⟩

/-! ## C4: zoom enablement threshold -/

/-- Counterexample to C4 as stated: a dataset with exactly 3 distinct
x values has `maxZoom = 1` and zoom disabled, while the claim says at
least 3 distinct values enable zoom. -/
theorem zoom_three_distinct_counterexample :
    distinctXCount
        [{ x := 2013, y := 1, series := "" }, { x := 2014, y := 2, series := "" },
         { x := 2015, y := 3, series := "" }] = 3 ∧
    zoomEnabled
        [{ x := 2013, y := 1, series := "" }, { x := 2014, y := 2, series := "" },
         { x := 2015, y := 3, series := "" }] = false := by
  decide

/-- On the zoom-enabled side the natural-division model `(u + 2) / 3`
is exactly `Math.ceil(uniqueX / 3)`. -/
theorem maxZoom_eq_ceil (u : ℕ) (h : 3 < u) : maxZoom u = ⌈(u : ℚ) / 3⌉₊ := by
  rw [maxZoom, if_pos h]
  symm
  rw [Nat.ceil_eq_iff (by omega)]
  refine ⟨?_, ?_⟩
  · rw [lt_div_iff₀ (by norm_num : (0 : ℚ) < 3)]
    exact_mod_cast (by omega : ((u + 2) / 3 - 1) * 3 < u)
  · rw [div_le_iff₀ (by norm_num : (0 : ℚ) < 3)]
    exact_mod_cast (by omega : u ≤ ((u + 2) / 3) * 3)

/-- C4 (amended): the line chart enables zoom exactly when the data
contains more than 3 (that is, at least 4) distinct x values; when
enabled, the zoom cap is the least integer at least one third of the
distinct-x count, that is, the ceiling of one third of it. -/
theorem zoom_enablement_threshold (data : List Point) :
    (zoomEnabled data = true ↔ 3 < distinctXCount data) ∧
    (3 < distinctXCount data →
      distinctXCount data ≤ 3 * maxZoom (distinctXCount data) ∧
      3 * (maxZoom (distinctXCount data) - 1) < distinctXCount data ∧
      1 < maxZoom (distinctXCount data) ∧
      maxZoom (distinctXCount data) = ⌈(distinctXCount data : ℚ) / 3⌉₊) := by
  constructor
  · simp only [zoomEnabled, maxZoom, decide_eq_true_eq]
    split <;> omega
  · intro h
    have hc := maxZoom_eq_ceil _ h
    refine ⟨?_, ?_, ?_, hc⟩ <;> simp only [maxZoom, if_pos h] <;> omega

/-- Witness for C4 (amended) at a dataset with 4 distinct x values. -/
theorem zoom_enablement_threshold_witness :
    3 < distinctXCount
        [{ x := 2013, y := 1, series := "" }, { x := 2014, y := 2, series := "" },
         { x := 2015, y := 3, series := "" }, { x := 2016, y := 4, series := "" }] ∧
    1 < maxZoom (distinctXCount
        [{ x := 2013, y := 1, series := "" }, { x := 2014, y := 2, series := "" },
         { x := 2015, y := 3, series := "" }, { x := 2016, y := 4, series := "" }]) :=
  ⟨by decide,
   ((zoom_enablement_threshold _).2 (by decide)).2.2.1⟩

/-! ## C8: renderer guards -/

/-- C8: every chart renderer performs no drawing when the data array
is empty or the measured width is zero: the SVG children are returned
unchanged (so an initially empty SVG stays empty), and totality of
the render functions models that no exception is thrown. -/
theorem chart_renderers_noop_on_empty_or_zero_width (width : ℚ) (prev : List SvgNode) :
    (∀ (data : List (String × ℚ)) (maxBars : ℕ), data = [] ∨ width = 0 →
      barChartRender data width maxBars prev = prev) ∧
    (∀ data : List Point, data = [] ∨ width = 0 →
      lineChartRender data width prev = prev) ∧
    (∀ data : List (String × ℚ), data = [] ∨ width = 0 →
      donutChartRender data width prev = prev) ∧
    (∀ data : List (String × ℚ), data = [] ∨ width = 0 →
      treemapChartRender data width prev = prev) ∧
    (∀ (data : List (List ℚ)) (stackKeys : List String), data = [] ∨ width = 0 →
      stackedBarChartRender data width stackKeys prev = prev) := by
  have hlen : ∀ {α : Type} (l : List α), l = [] → l.length = 0 := by
    intro α l h; simp [h]
  refine ⟨?_, ?_, ?_, ?_, ?_⟩ <;> intro data
  · intro maxBars h
    rcases h with h | h
    · simp [barChartRender, hlen data h]
    · simp [barChartRender, h]
  · intro h
    rcases h with h | h
    · simp [lineChartRender, hlen data h]
    · simp [lineChartRender, h]
  · intro h
    rcases h with h | h
    · simp [donutChartRender, hlen data h]
    · simp [donutChartRender, h]
  · intro h
    rcases h with h | h
    · simp [treemapChartRender, hlen data h]
    · simp [treemapChartRender, h]
  · intro stackKeys h
    rcases h with h | h
    · simp [stackedBarChartRender, hlen data h]
    · simp [stackedBarChartRender, h]

/-- Witness for C8: on an empty SVG with empty data all five render
effects leave the SVG without children. -/
theorem chart_renderers_noop_witness :
    barChartRender [] 100 15 [] = [] ∧
    lineChartRender [] 100 [] = [] ∧
    donutChartRender [] 100 [] = [] ∧
    treemapChartRender [] 100 [] = [] ∧
    stackedBarChartRender [] 100 ["Truck"] [] = [] := by
  obtain ⟨h1, h2, h3, h4, h5⟩ := chart_renderers_noop_on_empty_or_zero_width (100 : ℚ) []
  exact ⟨h1 [] 15 (Or.inl rfl), h2 [] (Or.inl rfl), h3 [] (Or.inl rfl),
    h4 [] (Or.inl rfl), h5 [] ["Truck"] (Or.inl rfl)⟩

/-! ## C7: silent export failures -/

/-- C7: export failures never raise: a zero-dimension SVG or a failed
image decode ends the PNG export with a logged warning and no
download, and CSV export of an empty array is a silent no-op. -/
theorem export_failures_are_silent (input : PngExportInput) (t s : Bool) :
    (∀ w h, input.svgSize = some (w, h) → w = 0 ∨ h = 0 →
      exportChartPng input t s = .warnedZeroDims) ∧
    (∀ w h, input.svgSize = some (w, h) → ¬(w = 0 ∨ h = 0) → input.decodeOk = false →
      exportChartPng input t s = .warnedDecodeFailed) ∧
    (exportChartPng input t s = .noSvg ∨
      exportChartPng input t s = .warnedZeroDims ∨
      exportChartPng input t s = .warnedDecodeFailed ∨
      ∃ pw ph, exportChartPng input t s = .downloaded pw ph) ∧
    downloadCsv [] = none := by
  refine ⟨?_, ?_, ?_, rfl⟩
  · intro w h hsvg hz
    simp [exportChartPng, hsvg, hz]
  · intro w h hsvg hz hdec
    simp [exportChartPng, hsvg, hz, hdec]
  · rcases hsv : input.svgSize with _ | ⟨w, h⟩
    · exact Or.inl (by simp [exportChartPng, hsv])
    · by_cases hz : w = 0 ∨ h = 0
      · exact Or.inr (Or.inl (by simp [exportChartPng, hsv, hz]))
      · rcases hdec : input.decodeOk with _ | _
        · exact Or.inr (Or.inr (Or.inl (by simp [exportChartPng, hsv, hz, hdec])))
        · exact Or.inr (Or.inr (Or.inr ⟨pngCanvasWidth w, pngCanvasHeight h t s,
            by simp [exportChartPng, hsv, hz, hdec]⟩))

/-- Witness for C7 at a zero-width SVG and at a decode failure. -/
theorem export_failures_are_silent_witness :
    exportChartPng { svgSize := some (0, 300), decodeOk := true } true false =
      .warnedZeroDims ∧
    exportChartPng { svgSize := some (640, 300), decodeOk := false } true false =
      .warnedDecodeFailed :=
  ⟨(export_failures_are_silent _ true false).1 0 300 rfl (Or.inl rfl),
   (export_failures_are_silent _ true false).2.1 640 300 rfl (by norm_num) rfl⟩

/-! ## C2: zoom handler range emission -/

/-- C2: on every zoom update with a registered listener, the handler
emits `{ xKey, min: ceil(domain[0]), max: floor(domain[1]) }` of the
rescaled x scale while `k > 1` and the null range at `k = 1`; the
emission is a fire-and-forget call (totality models no throw and no
return value), and without a listener the zoom update still produces
the rescaled scale. -/
theorem zoom_handler_emission (hasL : Bool) (xKey : String) (x0 : LinScale)
    (t : ZoomTransform) :
    (1 < t.k →
      (zoomHandler true xKey x0 t).emitted =
        some (some { xKey := xKey
                     min := ⌈(rescaleX t x0).d0⌉
                     max := ⌊(rescaleX t x0).d1⌋ })) ∧
    (t.k = 1 → (zoomHandler true xKey x0 t).emitted = some none) ∧
    (zoomHandler false xKey x0 t).emitted = none ∧
    (zoomHandler false xKey x0 t).currentX = rescaleX t x0 ∧
    (zoomHandler hasL xKey x0 t).currentX = rescaleX t x0 := by
  refine ⟨?_, ?_, rfl, rfl, rfl⟩
  · intro hk
    simp [zoomHandler, zoomEmission, hk]
  · intro hk
    simp [zoomHandler, zoomEmission, hk]

/-- Witness for C2: zooming the scale with domain `[2013, 2023]` and
range `[0, 100]` by `k = 2, tx = -10` emits the range `[2014, 2018]`. -/
theorem zoom_handler_emission_witness :
    (1 : ℚ) < 2 ∧
    (zoomHandler true "year" { d0 := 2013, d1 := 2023, r0 := 0, r1 := 100 }
        { k := 2, tx := -10 }).emitted =
      some (some { xKey := "year", min := 2014, max := 2018 }) :=
  ⟨by norm_num,
   ((zoom_handler_emission true "year" { d0 := 2013, d1 := 2023, r0 := 0, r1 := 100 }
       { k := 2, tx := -10 }).1 (by norm_num)).trans (by
     norm_num [rescaleX, LinScale.invert, ZoomTransform.invertX, Int.ceil_eq_iff])⟩

/-! ## C1: chart card range-scoped download filtering -/

/-- C1: with a payload and a visible range, each non-empty payload
array keeps exactly its rows whose resolved axis field lies within
`[min, max]` inclusive (so the filtered count never exceeds the
unfiltered count); the axis key falls back to the capitalized variant
when the first row lacks the exact key, and with neither key present
the array passes through unfiltered. -/
theorem chart_card_range_filter (xKey : String) (mn mx : ℚ) (arr : List DlRow) :
    (filterArr xKey mn mx arr).length ≤ arr.length ∧
    (∀ r0 rest, arr = r0 :: rest →
      ((rowGet r0 xKey).isSome → resolveKey r0 xKey = some xKey) ∧
      (rowGet r0 xKey = none → (rowGet r0 (capitalizeKey xKey)).isSome →
        resolveKey r0 xKey = some (capitalizeKey xKey)) ∧
      (resolveKey r0 xKey = none → filterArr xKey mn mx arr = arr) ∧
      (∀ k, resolveKey r0 xKey = some k →
        ∀ d, d ∈ filterArr xKey mn mx arr ↔
          (d ∈ arr ∧ ∃ v, rowGet d k = some v ∧ mn ≤ v ∧ v ≤ mx))) ∧
    (∀ dd z, effectiveDownloadData (some dd) (some z) =
      some { summary := dd.summary.map (filterEntry z)
             detail := dd.detail.map (filterEntry z) }) := by
  refine ⟨?_, ?_, fun dd z => rfl⟩
  · cases arr with
    | nil => exact le_refl _
    | cons r0 rest =>
      rcases hres : resolveKey r0 xKey with _ | k
      · simp only [filterArr, hres]
        exact le_refl _
      · simp only [filterArr, hres]
        exact List.length_filter_le _ _
  · intro r0 rest harr
    subst harr
    refine ⟨?_, ?_, ?_, ?_⟩
    · intro h
      simp [resolveKey, h]
    · intro h1 h2
      simp [resolveKey, h1, h2]
    · intro hres
      simp [filterArr, hres]
    · intro k hres d
      simp only [filterArr, hres, List.mem_filter]
      refine and_congr_right fun _ => ?_
      match hv : rowGet d k with
      | none => simp
      | some v => simp

/-- Witness for C1: filtering three year rows to `[2014, 2015]` keeps
exactly the row at 2014. -/
theorem chart_card_range_filter_witness :
    resolveKey [("year", (2013 : ℚ))] "year" = some "year" ∧
    (∀ d, d ∈ filterArr "year" 2014 2015
        [[("year", (2013 : ℚ))], [("year", 2014)], [("year", 2016)]] ↔
      (d ∈ [[("year", (2013 : ℚ))], [("year", 2014)], [("year", 2016)]] ∧
        ∃ v, rowGet d "year" = some v ∧ 2014 ≤ v ∧ v ≤ 2015)) :=
  ⟨by decide,
   ((chart_card_range_filter "year" 2014 2015
       [[("year", (2013 : ℚ))], [("year", 2014)], [("year", 2016)]]).2.1
     _ _ rfl).2.2.2 "year" (by decide)⟩

/-! ## C9: tooltip snapping -/

/-- Counterexample to C9 as stated: with data points only at x = 0 and
x = 10, a pointer at the position of x = 4 has nearest present data
x value 0, but the mousemove handler rounds to 4, finds no point
there, and hides the tooltip instead of displaying the series values
at 0. -/
theorem tooltip_nearest_snap_counterexample :
    [{ x := 0, y := 1, series := "" }, { x := 10, y := 2, series := "" }].map Point.x =
      [0, 10] ∧
    nearestDataX [0, 10]
        (({ d0 := 0, d1 := 10, r0 := 0, r1 := 10 } : LinScale).invert 4) = some 0 ∧
    mousemoveTooltip { d0 := 0, d1 := 10, r0 := 0, r1 := 10 }
        [{ name := "default"
           values := [{ x := 0, y := 1, series := "" }, { x := 10, y := 2, series := "" }] }]
        4 = .hidden := by
  have hq : ({ d0 := 0, d1 := 10, r0 := 0, r1 := 10 } : LinScale).invert 4 = 4 := by
    norm_num [LinScale.invert]
  have hr : round (({ d0 := 0, d1 := 10, r0 := 0, r1 := 10 } : LinScale).invert 4) = (4 : ℤ) := by
    rw [hq]; norm_num [round_eq]
  refine ⟨rfl, ?_, ?_⟩
  · rw [hq]
    simp only [nearestDataX, List.foldl_cons, List.foldl_nil]
    norm_num
  · simp only [mousemoveTooltip, hr]
    decide

/-- C9 (amended): on pointer movement the tooltip snaps to the
rounded inverted pointer x; when the data holds a point at that
integer in some series, all series values there are displayed, and
otherwise the tooltip is hidden; pointer leave and any zoom gesture
always hide the tooltip. -/
theorem tooltip_round_snap (currentX : LinScale) (series : List SeriesData) (mx : ℚ) :
    (tooltipEntriesAt series (round (currentX.invert mx)) = [] →
      mousemoveTooltip currentX series mx = .hidden) ∧
    (tooltipEntriesAt series (round (currentX.invert mx)) ≠ [] →
      mousemoveTooltip currentX series mx =
        .shown (round (currentX.invert mx))
          (tooltipEntriesAt series (round (currentX.invert mx)))) ∧
    (∀ s ∈ series, ∀ p,
      s.values.find? (fun d => d.x == round (currentX.invert mx)) = some p →
      (s.name, p.y) ∈ tooltipEntriesAt series (round (currentX.invert mx))) ∧
    mouseleaveTooltip = .hidden ∧
    (∀ (hasL : Bool) (xKey : String) (x0 : LinScale) (t : ZoomTransform),
      (zoomHandler hasL xKey x0 t).tooltipHidden = true) := by
  refine ⟨?_, ?_, ?_, rfl, fun _ _ _ _ => rfl⟩
  · intro h
    simp [mousemoveTooltip, h]
  · intro h
    simp [mousemoveTooltip, List.isEmpty_iff, h]
  · intro s hs p hp
    exact List.mem_filterMap.mpr ⟨s, hs, by simp [hp]⟩

/-- Witness for C9 (amended): hovering at the position of a present
data x shows that series value. -/
theorem tooltip_round_snap_witness :
    tooltipEntriesAt [{ name := "A", values := [{ x := 2, y := 5, series := "" }] }]
        (round (({ d0 := 0, d1 := 10, r0 := 0, r1 := 10 } : LinScale).invert 2)) ≠ [] ∧
    mousemoveTooltip { d0 := 0, d1 := 10, r0 := 0, r1 := 10 }
        [{ name := "A", values := [{ x := 2, y := 5, series := "" }] }] 2 =
      .shown (round (({ d0 := 0, d1 := 10, r0 := 0, r1 := 10 } : LinScale).invert 2))
        (tooltipEntriesAt [{ name := "A", values := [{ x := 2, y := 5, series := "" }] }]
          (round (({ d0 := 0, d1 := 10, r0 := 0, r1 := 10 } : LinScale).invert 2))) := by
  have hr : round (({ d0 := 0, d1 := 10, r0 := 0, r1 := 10 } : LinScale).invert 2) = (2 : ℤ) := by
    norm_num [LinScale.invert, round_eq]
  exact ⟨by rw [hr]; decide,
    (tooltip_round_snap { d0 := 0, d1 := 10, r0 := 0, r1 := 10 }
      [{ name := "A", values := [{ x := 2, y := 5, series := "" }] }] 2).2.1
      (by rw [hr]; decide)⟩

/-! ## C5: aggregation sum correctness -/

/-- Folding addition of a projection over a list equals the starting
value plus the sum of the projections. -/
theorem foldl_add_proj {α : Type} (g : α → ℚ) (l : List α) (s : ℚ) :
    l.foldl (fun acc d => acc + g d) s = s + (l.map g).sum := by
  induction l generalizing s with
  | nil => simp
  | cons d l ih => simp [ih, add_assoc]

/-- The series total is the sum of the value components. -/
theorem seriesTotal_eq_sum (l : List (String × ℚ)) :
    seriesTotal l = (l.map Prod.snd).sum :=
  (foldl_add_proj Prod.snd l 0).trans (zero_add _)

/-- The helper `sumTradeValue` is the sum of the trade values. -/
theorem sumTradeValue_eq_sum (l : List TradeRow) :
    sumTradeValue l = (l.map TradeRow.TradeValue).sum :=
  (foldl_add_proj TradeRow.TradeValue l 0).trans (zero_add _)

/-- Upserting `get + v` into an accumulation map adds `v` to its value
total. -/
theorem mapSet_add_sum (m : List (String × ℚ)) (k : String) (v : ℚ) :
    ((mapSet m k (mapGet m k + v)).map Prod.snd).sum = (m.map Prod.snd).sum + v := by
  induction m with
  | nil => simp [mapSet, mapGet]
  | cons p m ih =>
    obtain ⟨k₂, v₂⟩ := p
    by_cases h : k₂ = k
    · simp [mapSet, mapGet, h]
      ring
    · simp [mapSet, mapGet, h, ih]
      ring

/-- Descending insertion preserves the value total. -/
theorem insertByValueDesc_sum (x : String × ℚ) (l : List (String × ℚ)) :
    ((insertByValueDesc x l).map Prod.snd).sum = x.2 + (l.map Prod.snd).sum := by
  induction l with
  | nil => simp [insertByValueDesc]
  | cons y ys ih =>
    by_cases h : y.2 < x.2
    · simp [insertByValueDesc, h]
    · simp [insertByValueDesc, h, ih]
      ring

/-- Sorting by value preserves the value total. -/
theorem sortByValueDesc_sum (l : List (String × ℚ)) :
    ((sortByValueDesc l).map Prod.snd).sum = (l.map Prod.snd).sum := by
  induction l with
  | nil => rfl
  | cons x xs ih => simp [sortByValueDesc, insertByValueDesc_sum, ih]

/-- The accumulation fold shared by the aggregators totals exactly
the trade values of the rows with a non-falsy label. -/
theorem groupFold_sum (f : TradeRow → Option String) (data : List TradeRow)
    (m : List (String × ℚ)) :
    ((data.foldl (fun m d => groupStep (f d) d.TradeValue m) m).map Prod.snd).sum =
      (m.map Prod.snd).sum +
        ((data.filter fun d => !falsyLabel (f d)).map TradeRow.TradeValue).sum := by
  induction data generalizing m with
  | nil => simp
  | cons d data ih =>
    rw [List.foldl_cons, ih, List.filter_cons]
    rcases hl : f d with _ | l
    · simp [hl, groupStep, falsyLabel]
    · by_cases he : l.isEmpty
      · simp [hl, he, groupStep, falsyLabel]
      · simp [hl, he, groupStep, falsyLabel, mapSet_add_sum]
        ring

/-- Counterexample to C5 as stated: a filtered row set containing a
row with no `Mode` (a falsy grouping label) and trade value 5 yields
an aggregated series totalling 0, while the filtered rows total 5. -/
theorem aggregation_sum_counterexample :
    seriesTotal (groupAndSum (applyFilters
        [{ Year := none, TradeType := none, Mode := none, State := none,
           CommodityGroup := none, POE := none, TradeValue := 5 }] noFilters)
      GroupKey.mode) = 0 ∧
    sumTradeValue (applyFilters
        [{ Year := none, TradeType := none, Mode := none, State := none,
           CommodityGroup := none, POE := none, TradeValue := 5 }] noFilters) = 5 ∧
    (0 : ℚ) ≠ 5 := by
  refine ⟨rfl, ?_, by norm_num⟩
  simp [applyFilters, noFilters, sumTradeValue]

/-- C5 (amended): for any dataset array, any filter combination and
any grouping key, the total of the aggregated series equals the sum
of the value field over those filtered rows that carry a non-empty
grouping label (rows with a null or empty label are skipped by the
aggregators); likewise for the home-page mode aggregation over the
whole dataset. -/
theorem aggregation_sum_over_labeled_rows (data : List TradeRow) (f : QueryFilters)
    (key : GroupKey) :
    seriesTotal (groupAndSum (applyFilters data f) key) =
      sumTradeValue ((applyFilters data f).filter fun d => !falsyLabel (d.getStr key)) ∧
    seriesTotal (modeData data) =
      sumTradeValue (data.filter fun d => !falsyLabel d.Mode) := by
  constructor
  · rw [seriesTotal_eq_sum, sumTradeValue_eq_sum, groupAndSum, sortByValueDesc_sum]
    simpa using groupFold_sum (fun d => d.getStr key) (applyFilters data f) []
  · rw [seriesTotal_eq_sum, sumTradeValue_eq_sum, modeData, sortByValueDesc_sum]
    simpa using groupFold_sum (fun d => d.Mode) data []

/-! ## C3: emitted range invariant -/

/-- A minimum fold is bounded by its initial value. -/
theorem foldl_min_le_init (l : List ℤ) (a : ℤ) : l.foldl min a ≤ a := by
  induction l generalizing a with
  | nil => exact le_refl a
  | cons b l ih => exact le_trans (ih (min a b)) (min_le_left a b)

/-- A minimum fold is bounded by every list member. -/
theorem foldl_min_le_mem (l : List ℤ) (a y : ℤ) (hy : y ∈ l) : l.foldl min a ≤ y := by
  induction l generalizing a with
  | nil => cases hy
  | cons b l ih =>
    rcases List.mem_cons.mp hy with rfl | hy₂
    · exact le_trans (foldl_min_le_init l (min a y)) (min_le_right a y)
    · exact ih (min a b) hy₂

/-- A maximum fold dominates its initial value. -/
theorem init_le_foldl_max (l : List ℤ) (a : ℤ) : a ≤ l.foldl max a := by
  induction l generalizing a with
  | nil => exact le_refl a
  | cons b l ih => exact le_trans (le_max_left a b) (ih (max a b))

/-- A maximum fold dominates every list member. -/
theorem mem_le_foldl_max (l : List ℤ) (a y : ℤ) (hy : y ∈ l) : y ≤ l.foldl max a := by
  induction l generalizing a with
  | nil => cases hy
  | cons b l ih =>
    rcases List.mem_cons.mp hy with rfl | hy₂
    · exact le_trans (le_max_right a y) (init_le_foldl_max l (max a y))
    · exact ih (max a b) hy₂

/-- A list of integers confined to `[lo, hi]` has at most
`hi - lo + 1` distinct members. -/
theorem dedup_length_le_range (l : List ℤ) (lo hi : ℤ) (hlohi : lo ≤ hi)
    (h : ∀ y ∈ l, lo ≤ y ∧ y ≤ hi) : (l.dedup.length : ℤ) ≤ hi - lo + 1 := by
  have hsub : l.toFinset ⊆ Finset.Icc lo hi := by
    intro a ha
    rw [List.mem_toFinset] at ha
    exact Finset.mem_Icc.mpr (h a ha)
  have hcard : l.toFinset.card ≤ (Finset.Icc lo hi).card := Finset.card_le_card hsub
  rw [List.card_toFinset, Int.card_Icc] at hcard
  have : ((hi + 1 - lo).toNat : ℤ) = hi + 1 - lo := Int.toNat_of_nonneg (by omega)
  omega

/-- When zoom is enabled the zoom cap is below the distinct count. -/
theorem maxZoom_le_sub_one (u : ℕ) (h : 3 < u) : maxZoom u ≤ u - 1 := by
  simp only [maxZoom, if_pos h]
  omega

/-- The zoom enablement condition in terms of the distinct-x count. -/
theorem zoomEnabled_iff (data : List Point) :
    zoomEnabled data = true ↔ 3 < distinctXCount data := by
  simp only [zoomEnabled, maxZoom, decide_eq_true_eq]
  split <;> omega

/-- Rounding a window of width at least 1 inward keeps its endpoints
ordered and inside the enclosing integer interval. -/
theorem ceil_floor_window (d0 d1 : ℤ) (a b : ℚ)
    (hd0a : (d0 : ℚ) ≤ a) (hbd1 : b ≤ (d1 : ℚ)) (hab : a + 1 ≤ b) :
    d0 ≤ ⌈a⌉ ∧ ⌈a⌉ ≤ ⌊b⌋ ∧ ⌊b⌋ ≤ d1 := by
  refine ⟨?_, ?_, ?_⟩
  · have := Int.ceil_le_ceil hd0a
    rwa [Int.ceil_intCast] at this
  · calc ⌈a⌉ ≤ ⌊a⌋ + 1 := Int.ceil_le_floor_add_one a
    _ = ⌊a + 1⌋ := (Int.floor_add_one a).symm
    _ ≤ ⌊b⌋ := Int.floor_le_floor hab
  · have := Int.floor_le_floor hbd1
    rwa [Int.floor_intCast] at this

/-- C3: every non-null range emitted by the zoom handler satisfies
`min ≤ max` with both endpoints inside the extent of the data x
values, and a null visible range always passes the download payload
through unfiltered.  The hypotheses record the configuration at the
emission site: a positive plot width, zoom enabled (at least 4
distinct integer x values), and the d3 zoom constraint
`scaleExtent([1, maxZoom])` with `translateExtent` equal to the plot
extent, which keeps the visible window inside the range
(`k ≤ maxZoom`, `invertX(0) ≥ 0`, `invertX(innerW) ≤ innerW`). -/
theorem zoom_range_within_domain
    (p0 : Point) (rest : List Point) (innerW : ℚ) (t : ZoomTransform) (xKey : String)
    (hW : 0 < innerW)
    (hEnabled : zoomEnabled (p0 :: rest) = true)
    (hkHi : t.k ≤ (maxZoom (distinctXCount (p0 :: rest)) : ℚ))
    (hT0 : 0 ≤ t.invertX 0)
    (hT1 : t.invertX innerW ≤ innerW)
    (r : ZoomRange)
    (hemit : zoomEmission xKey t (lineChartXScale p0 rest innerW) = some r) :
    r.min ≤ r.max ∧
    extentMin p0.x (rest.map Point.x) ≤ r.min ∧
    r.max ≤ extentMax p0.x (rest.map Point.x) ∧
    (∀ dd : DlData, effectiveDownloadData (some dd) none = some dd) := by
  by_cases hk : 1 < t.k
  case neg => simp [zoomEmission, hk] at hemit
  rw [zoomEmission, if_pos hk] at hemit
  obtain rfl :
      ({ xKey := xKey
         min := ⌈(rescaleX t (lineChartXScale p0 rest innerW)).d0⌉
         max := ⌊(rescaleX t (lineChartXScale p0 rest innerW)).d1⌋ } : ZoomRange) = r :=
    Option.some.inj hemit
  have hk0 : (0 : ℚ) < t.k := lt_trans one_pos hk
  have hu : 3 < distinctXCount (p0 :: rest) := (zoomEnabled_iff _).mp hEnabled
  have hd01 : extentMin p0.x (rest.map Point.x) ≤ extentMax p0.x (rest.map Point.x) :=
    le_trans (foldl_min_le_init _ _) (init_le_foldl_max _ _)
  have hbounds : ∀ y ∈ (p0 :: rest).map Point.x,
      extentMin p0.x (rest.map Point.x) ≤ y ∧ y ≤ extentMax p0.x (rest.map Point.x) := by
    intro y hy
    rw [List.map_cons, List.mem_cons] at hy
    rcases hy with rfl | hy
    · exact ⟨foldl_min_le_init _ _, init_le_foldl_max _ _⟩
    · exact ⟨foldl_min_le_mem _ _ _ hy, mem_le_foldl_max _ _ _ hy⟩
  have hcard : ((distinctXCount (p0 :: rest)) : ℤ) ≤
      extentMax p0.x (rest.map Point.x) - extentMin p0.x (rest.map Point.x) + 1 := by
    have := dedup_length_le_range ((p0 :: rest).map Point.x) _ _ hd01 hbounds
    simpa [distinctXCount] using this
  have hmz : (maxZoom (distinctXCount (p0 :: rest)) : ℤ) ≤
      extentMax p0.x (rest.map Point.x) - extentMin p0.x (rest.map Point.x) := by
    have h1 := maxZoom_le_sub_one _ hu
    omega
  have hkD : t.k ≤ ((extentMax p0.x (rest.map Point.x) : ℚ) -
      (extentMin p0.x (rest.map Point.x) : ℚ)) := by
    refine le_trans hkHi ?_
    have : ((maxZoom (distinctXCount (p0 :: rest)) : ℤ) : ℚ) ≤
        (((extentMax p0.x (rest.map Point.x) - extentMin p0.x (rest.map Point.x)) : ℤ) : ℚ) := by
      exact_mod_cast hmz
    push_cast at this ⊢
    linarith
  have hDnn : (0 : ℚ) ≤ (extentMax p0.x (rest.map Point.x) : ℚ) -
      (extentMin p0.x (rest.map Point.x) : ℚ) := by
    have : ((extentMin p0.x (rest.map Point.x) : ℤ) : ℚ) ≤
        ((extentMax p0.x (rest.map Point.x) : ℤ) : ℚ) := by exact_mod_cast hd01
    linarith
  have hBA : t.invertX innerW - t.invertX 0 = innerW / t.k := by
    unfold ZoomTransform.invertX
    rw [div_sub_div_same]
    congr 1
    ring
  -- rescaled endpoints in explicit form
  have ha : (rescaleX t (lineChartXScale p0 rest innerW)).d0 =
      (extentMin p0.x (rest.map Point.x) : ℚ) +
        (t.invertX 0) / innerW *
          ((extentMax p0.x (rest.map Point.x) : ℚ) - (extentMin p0.x (rest.map Point.x) : ℚ)) := by
    simp [rescaleX, lineChartXScale, LinScale.invert]
  have hb : (rescaleX t (lineChartXScale p0 rest innerW)).d1 =
      (extentMin p0.x (rest.map Point.x) : ℚ) +
        (t.invertX innerW) / innerW *
          ((extentMax p0.x (rest.map Point.x) : ℚ) - (extentMin p0.x (rest.map Point.x) : ℚ)) := by
    simp [rescaleX, lineChartXScale, LinScale.invert]
  have hd0a : ((extentMin p0.x (rest.map Point.x) : ℤ) : ℚ) ≤
      (rescaleX t (lineChartXScale p0 rest innerW)).d0 := by
    rw [ha]
    have : 0 ≤ (t.invertX 0) / innerW *
        ((extentMax p0.x (rest.map Point.x) : ℚ) - (extentMin p0.x (rest.map Point.x) : ℚ)) :=
      mul_nonneg (div_nonneg hT0 hW.le) hDnn
    linarith
  have hbd1 : (rescaleX t (lineChartXScale p0 rest innerW)).d1 ≤
      ((extentMax p0.x (rest.map Point.x) : ℤ) : ℚ) := by
    rw [hb]
    have h1 : (t.invertX innerW) / innerW ≤ 1 := (div_le_one hW).mpr hT1
    have h2 : (t.invertX innerW) / innerW *
        ((extentMax p0.x (rest.map Point.x) : ℚ) - (extentMin p0.x (rest.map Point.x) : ℚ)) ≤
        ((extentMax p0.x (rest.map Point.x) : ℚ) - (extentMin p0.x (rest.map Point.x) : ℚ)) :=
      mul_le_of_le_one_left hDnn h1
    linarith
  have hab : (rescaleX t (lineChartXScale p0 rest innerW)).d0 + 1 ≤
      (rescaleX t (lineChartXScale p0 rest innerW)).d1 := by
    have hdiff : (rescaleX t (lineChartXScale p0 rest innerW)).d1 -
        (rescaleX t (lineChartXScale p0 rest innerW)).d0 =
        ((extentMax p0.x (rest.map Point.x) : ℚ) - (extentMin p0.x (rest.map Point.x) : ℚ)) / t.k := by
      rw [ha, hb]
      have : (t.invertX innerW) / innerW - (t.invertX 0) / innerW = 1 / t.k := by
        rw [div_sub_div_same, hBA]
        field_simp
        ring
      calc (extentMin p0.x (rest.map Point.x) : ℚ) +
            (t.invertX innerW) / innerW * _ -
            ((extentMin p0.x (rest.map Point.x) : ℚ) + (t.invertX 0) / innerW * _) =
          ((t.invertX innerW) / innerW - (t.invertX 0) / innerW) *
            ((extentMax p0.x (rest.map Point.x) : ℚ) - (extentMin p0.x (rest.map Point.x) : ℚ)) := by
            ring
      _ = 1 / t.k *
            ((extentMax p0.x (rest.map Point.x) : ℚ) - (extentMin p0.x (rest.map Point.x) : ℚ)) := by
            rw [this]
      _ = ((extentMax p0.x (rest.map Point.x) : ℚ) -
            (extentMin p0.x (rest.map Point.x) : ℚ)) / t.k := by ring
    have hone : (1 : ℚ) ≤ ((extentMax p0.x (rest.map Point.x) : ℚ) -
        (extentMin p0.x (rest.map Point.x) : ℚ)) / t.k := (one_le_div hk0).mpr hkD
    linarith
  obtain ⟨g1, g2, g3⟩ := ceil_floor_window _ _ _ _ hd0a hbd1 hab
  exact ⟨g2, g1, g3, fun _ => rfl⟩

/-- Witness for C3: four consecutive years zoomed by `k = 2,
tx = -100` on a 100-pixel plot emit the range `[2015, 2016]`, which
is ordered and inside the extent `[2013, 2016]`. -/
theorem zoom_range_within_domain_witness :
    ({ xKey := "year", min := 2015, max := 2016 } : ZoomRange).min ≤
      ({ xKey := "year", min := 2015, max := 2016 } : ZoomRange).max ∧
    extentMin ({ x := 2013, y := 1, series := "" } : Point).x
        ([{ x := 2014, y := 1, series := "" }, { x := 2015, y := 1, series := "" },
          { x := 2016, y := 1, series := "" }].map Point.x) ≤
      ({ xKey := "year", min := 2015, max := 2016 } : ZoomRange).min ∧
    ({ xKey := "year", min := 2015, max := 2016 } : ZoomRange).max ≤
      extentMax ({ x := 2013, y := 1, series := "" } : Point).x
        ([{ x := 2014, y := 1, series := "" }, { x := 2015, y := 1, series := "" },
          { x := 2016, y := 1, series := "" }].map Point.x) ∧
    (∀ dd : DlData, effectiveDownloadData (some dd) none = some dd) :=
  zoom_range_within_domain
    { x := 2013, y := 1, series := "" }
    [{ x := 2014, y := 1, series := "" }, { x := 2015, y := 1, series := "" },
     { x := 2016, y := 1, series := "" }]
    100 { k := 2, tx := -100 } "year"
    (by norm_num)
    (by decide)
    (by
      rw [show distinctXCount
          [{ x := 2013, y := 1, series := "" }, { x := 2014, y := 1, series := "" },
           { x := 2015, y := 1, series := "" }, { x := 2016, y := 1, series := "" }] = 4
        from by decide]
      norm_num [maxZoom])
    (by norm_num [ZoomTransform.invertX])
    (by norm_num [ZoomTransform.invertX])
    { xKey := "year", min := 2015, max := 2016 }
    (by
      norm_num [zoomEmission, rescaleX, lineChartXScale, LinScale.invert,
        ZoomTransform.invertX, extentMin, extentMax, Int.ceil_eq_iff])



/-! ## C6: CSV serialization round trip -/

/-- Parser step: end of input closes field and record. -/
theorem pO_nil (f : List Char) (r : List (List Char)) :
    parseCsvOut [] f r = [r ++ [f]] := by
  rw [parseCsvOut]

/-- Parser step: an unquoted comma closes the field. -/
theorem pO_comma (cs : List Char) (f : List Char) (r : List (List Char)) :
    parseCsvOut (',' :: cs) f r = parseCsvOut cs [] (r ++ [f]) := by
  rw [parseCsvOut, if_pos rfl]

/-- Parser step: an unquoted newline closes the record. -/
theorem pO_newline (cs : List Char) (f : List Char) (r : List (List Char)) :
    parseCsvOut ('\n' :: cs) f r = (r ++ [f]) :: parseCsvOut cs [] [] := by
  rw [parseCsvOut, if_neg (by decide), if_pos rfl]

/-- Parser step: an unquoted quote enters quoted state. -/
theorem pO_quote (cs : List Char) (f : List Char) (r : List (List Char)) :
    parseCsvOut ('"' :: cs) f r = parseCsvIn cs f r := by
  rw [parseCsvOut, if_neg (by decide), if_neg (by decide), if_pos rfl]

/-- Parser step: an ordinary character extends the field. -/
theorem pO_other (c : Char) (cs : List Char) (f : List Char) (r : List (List Char))
    (h1 : c ≠ ',') (h2 : c ≠ '\n') (h3 : c ≠ '"') :
    parseCsvOut (c :: cs) f r = parseCsvOut cs (f ++ [c]) r := by
  rw [parseCsvOut, if_neg h1, if_neg h2, if_neg h3]

/-- Parser step: end of input in quoted state closes out. -/
theorem pI_nil (f : List Char) (r : List (List Char)) :
    parseCsvIn [] f r = [r ++ [f]] := by
  rw [parseCsvIn]

/-- Parser step: a doubled quote decodes to one quote. -/
theorem pI_qq (cs : List Char) (f : List Char) (r : List (List Char)) :
    parseCsvIn ('"' :: '"' :: cs) f r = parseCsvIn cs (f ++ ['"']) r := by
  rw [parseCsvIn, if_pos rfl, if_pos rfl]

/-- Parser step: a lone quote leaves quoted state. -/
theorem pI_q_end (cs : List Char) (f : List Char) (r : List (List Char))
    (h : cs.head? ≠ some '"') :
    parseCsvIn ('"' :: cs) f r = parseCsvOut cs f r := by
  match cs with
  | [] =>
    rw [parseCsvIn.eq_def]
    simp
  | c :: cs =>
    have hc : c ≠ '"' := by
      intro hc
      exact h (by simp [hc])
    rw [parseCsvIn, if_pos rfl, if_neg hc]

/-- Parser step: any other quoted character extends the field. -/
theorem pI_other (c : Char) (cs : List Char) (f : List Char) (r : List (List Char))
    (h : c ≠ '"') :
    parseCsvIn (c :: cs) f r = parseCsvIn cs (f ++ [c]) r := by
  rw [parseCsvIn.eq_def]
  simp [h]



/-- Parsing a quote-doubled body up to its closing quote recovers the
original field text. -/
theorem parse_quoted_body (s : List Char) :
    ∀ (f : List Char) (r : List (List Char)) (cs : List Char), cs.head? ≠ some '"' →
    parseCsvIn (csvDoubleQuotes s ++ '"' :: cs) f r = parseCsvOut cs (f ++ s) r := by
  induction s with
  | nil =>
    intro f r cs h
    simpa [csvDoubleQuotes] using pI_q_end cs f r h
  | cons c s ih =>
    intro f r cs h
    by_cases hc : c = '"'
    · subst hc
      rw [show csvDoubleQuotes ('"' :: s) = '"' :: '"' :: csvDoubleQuotes s from by
        simp [csvDoubleQuotes]]
      rw [List.cons_append, List.cons_append, pI_qq, ih _ _ _ h]
      simp
    · rw [show csvDoubleQuotes (c :: s) = c :: csvDoubleQuotes s from by
        simp [csvDoubleQuotes, hc]]
      rw [List.cons_append, pI_other c _ _ _ hc, ih _ _ _ h]
      simp

/-- Parsing a special-character-free body consumes it into the
current field. -/
theorem parse_unquoted_body (s : List Char) :
    ∀ (f : List Char) (r : List (List Char)) (cs : List Char), s.any isCsvSpecial = false →
    parseCsvOut (s ++ cs) f r = parseCsvOut cs (f ++ s) r := by
  induction s with
  | nil =>
    intro f r cs _
    simp
  | cons c s ih =>
    intro f r cs h
    simp only [List.any_cons, Bool.or_eq_false_iff] at h
    obtain ⟨hc, hs⟩ := h
    have h1 : c ≠ ',' := by intro he; subst he; simp [isCsvSpecial] at hc
    have h2 : c ≠ '\n' := by intro he; subst he; simp [isCsvSpecial] at hc
    have h3 : c ≠ '"' := by intro he; subst he; simp [isCsvSpecial] at hc
    rw [List.cons_append, pO_other c _ _ _ h1 h2 h3, ih _ _ _ hs]
    simp

/-- Parsing one escaped field recovers the original field text. -/
theorem parse_field (s : List Char) (r : List (List Char)) (cs : List Char)
    (h : cs.head? ≠ some '"') :
    parseCsvOut (csvEscapeField s ++ cs) [] r = parseCsvOut cs s r := by
  by_cases hs : s.any isCsvSpecial
  · rw [csvEscapeField, if_pos hs, List.cons_append, List.append_assoc, pO_quote]
    simpa using parse_quoted_body s [] r cs h
  · rw [csvEscapeField, if_neg hs]
    simpa using parse_unquoted_body s [] r cs (by simpa using hs)

/-- Parsing a serialized record at end of input yields its fields. -/
theorem parse_record_end (fs : List (List Char)) :
    ∀ (f : List Char) (r : List (List Char)),
    parseCsvOut (csvRecordLine (f :: fs)) [] r = [r ++ (f :: fs)] := by
  induction fs with
  | nil =>
    intro f r
    have h := parse_field f r [] (by simp)
    rw [show csvRecordLine [f] = csvEscapeField f from rfl]
    simpa [pO_nil] using h
  | cons f₂ fs ih =>
    intro f r
    rw [show csvRecordLine (f :: f₂ :: fs) =
        csvEscapeField f ++ ',' :: csvRecordLine (f₂ :: fs) from rfl]
    rw [parse_field f r _ (by simp), pO_comma, ih]
    simp

/-- Parsing a serialized record before a newline yields its fields
and continues with the remainder. -/
theorem parse_record_newline (fs : List (List Char)) :
    ∀ (f : List Char) (r : List (List Char)) (cs : List Char),
    parseCsvOut (csvRecordLine (f :: fs) ++ '\n' :: cs) [] r =
      (r ++ (f :: fs)) :: parseCsvOut cs [] [] := by
  induction fs with
  | nil =>
    intro f r cs
    rw [show csvRecordLine [f] = csvEscapeField f from rfl]
    rw [parse_field f r _ (by simp), pO_newline]
  | cons f₂ fs ih =>
    intro f r cs
    rw [show csvRecordLine (f :: f₂ :: fs) =
        csvEscapeField f ++ ',' :: csvRecordLine (f₂ :: fs) from rfl]
    rw [List.append_assoc, List.cons_append]
    rw [parse_field f r _ (by simp), pO_comma, ih]
    simp

/-- Parsing newline-joined serialized records recovers every record. -/
theorem parse_records (recs : List (List (List Char)))
    (hne : ∀ rec ∈ recs, rec ≠ []) (h0 : recs ≠ []) :
    parseCsv (joinWith '\n' (recs.map csvRecordLine)) = recs := by
  induction recs with
  | nil => exact absurd rfl h0
  | cons rec recs ih =>
    obtain ⟨f, fs, rfl⟩ : ∃ f fs, rec = f :: fs := by
      cases rec with
      | nil => exact absurd rfl (hne [] (by simp))
      | cons f fs => exact ⟨f, fs, rfl⟩
    cases recs with
    | nil =>
      rw [show joinWith '\n' ([f :: fs].map csvRecordLine) = csvRecordLine (f :: fs) from rfl]
      rw [parseCsv]
      simpa using parse_record_end fs f []
    | cons rec₂ recs₂ =>
      rw [show joinWith '\n' (((f :: fs) :: rec₂ :: recs₂).map csvRecordLine) =
          csvRecordLine (f :: fs) ++ '\n' ::
            joinWith '\n' ((rec₂ :: recs₂).map csvRecordLine) from rfl]
      rw [parseCsv, parse_record_newline]
      have ih₂ := ih (fun rec hr => hne rec (List.mem_cons_of_mem _ hr)) (by simp)
      rw [parseCsv] at ih₂
      rw [ih₂]
      simp

/-- Reading a row at its own (distinct) keys yields its values in
order. -/
theorem csvCell_cells (r : CsvRow) (hnd : (r.map Prod.fst).Nodup) :
    (r.map Prod.fst).map (fun k => csvCell r k) = r.map Prod.snd := by
  induction r with
  | nil => rfl
  | cons p r ih =>
    obtain ⟨k, v⟩ := p
    simp only [List.map_cons] at hnd ⊢
    rw [List.nodup_cons] at hnd
    obtain ⟨hk, hnd⟩ := hnd
    congr 1
    · simp [csvCell]
    · have hcong : ∀ k₂ ∈ r.map Prod.fst, csvCell ((k, v) :: r) k₂ = csvCell r k₂ := by
        intro k₂ hk₂
        have hne : ¬ k = k₂ := fun he => hk (he ▸ hk₂)
        simp [csvCell, hne]
      rw [List.map_congr_left hcong, ih hnd]



/-- A record of special-character-free fields serializes with no
quoting at all, so on clean keys the unescaped header emitted by
`downloadCsv` coincides with an escaped record. -/
theorem csvRecordLine_of_clean (fields : List (List Char))
    (h : ∀ f ∈ fields, f.any isCsvSpecial = false) :
    csvRecordLine fields = joinWith ',' fields := by
  rw [csvRecordLine]
  congr 1
  have hmap : ∀ f ∈ fields, csvEscapeField f = id f := by
    intro f hf
    rw [csvEscapeField, if_neg (by simp [h f hf])]
    rfl
  rw [List.map_congr_left hmap, List.map_id]

/-- Counterexample to C6 as stated: the header row is emitted as
`keys.join(',')` with no escaping, so a first-row key containing a
quote corrupts the framing of the whole output.  For the single row
mapping the key `a"x` to the value `v`, the serialized body parses as
one record holding one mangled field instead of the header followed
by the row value `v`. -/
theorem downloadCsv_header_quote_counterexample :
    parseCsv (csvBody [("a\"x", "v")] []) = [[['a', 'x', '\n', 'v']]] ∧
    parseCsv (csvBody [("a\"x", "v")] []) ≠
      ["a\"x".data] :: [["v".data]] := by
  have hb : csvBody [("a\"x", "v")] [] = ['a', '"', 'x', '\n', 'v'] := by decide
  have hp : parseCsv (csvBody [("a\"x", "v")] []) = [[['a', 'x', '\n', 'v']]] := by
    rw [hb, parseCsv, pO_other 'a' _ _ _ (by decide) (by decide) (by decide), pO_quote,
      pI_other 'x' _ _ _ (by decide), pI_other '\n' _ _ _ (by decide),
      pI_other 'v' _ _ _ (by decide), pI_nil]
    decide
  refine ⟨hp, ?_⟩
  rw [hp]
  decide

/-- C6 (amended): for every non-empty array of flat rows with
consistent schema whose first-row keys are free of commas, quotes,
CR and LF (the header is written unescaped, so dirty keys break the
framing), `downloadCsv` derives the column order from the first row,
prepends the byte-order mark, quotes exactly the fields containing a
comma, quote, CR or LF (doubling embedded quotes), and re-parsing the
body by splitting on commas and newlines while respecting quotes
reproduces the header and every original field value, embedded
commas, quotes and newlines included. -/
theorem downloadCsv_round_trip (r0 : CsvRow) (rest : List CsvRow)
    (hne : r0 ≠ [])
    (hnd : (r0.map Prod.fst).Nodup)
    (hsch : ∀ r ∈ r0 :: rest, r.map Prod.fst = r0.map Prod.fst)
    (hkeysClean : ∀ k ∈ r0.map Prod.fst, k.data.any isCsvSpecial = false) :
    downloadCsv (r0 :: rest) = some (Char.ofNat 0xFEFF :: csvBody r0 rest) ∧
    parseCsv (csvBody r0 rest) =
      ((r0.map Prod.fst).map String.data) ::
        (r0 :: rest).map (fun r => r.map fun p => p.2.data) ∧
    (∀ s : List Char, s.any isCsvSpecial = false → csvEscapeField s = s) ∧
    (∀ s : List Char, s.any isCsvSpecial = true →
      csvEscapeField s = '"' :: (csvDoubleQuotes s ++ ['"'])) := by
  have hkeys : r0.map Prod.fst ≠ [] := by simpa using hne
  refine ⟨rfl, ?_, ?_, ?_⟩
  · have hclean : ∀ f ∈ (r0.map Prod.fst).map String.data, f.any isCsvSpecial = false := by
      intro f hf
      obtain ⟨k, hk, rfl⟩ := List.mem_map.mp hf
      exact hkeysClean k hk
    have hbody : csvBody r0 rest =
        joinWith '\n'
          ((((r0.map Prod.fst).map String.data) ::
            (r0 :: rest).map (fun r => csvRowCells (r0.map Prod.fst) r)).map csvRecordLine) := by
      rw [csvBody, ← csvRecordLine_of_clean _ hclean]
      simp [List.map_map, Function.comp_def]
    rw [hbody, parse_records]
    · congr 1
      apply List.map_congr_left
      intro r hr
      have hks := hsch r hr
      have hcells := csvCell_cells r (by rw [hks]; exact hnd)
      calc csvRowCells (r0.map Prod.fst) r
          = (r.map Prod.fst).map (fun k => (csvCell r k).data) := by rw [csvRowCells, ← hks]
        _ = ((r.map Prod.fst).map (fun k => csvCell r k)).map String.data := by
            conv_rhs => rw [List.map_map]
            rfl
        _ = (r.map Prod.snd).map String.data := by rw [hcells]
        _ = r.map (fun p => p.2.data) := by
            rw [List.map_map]
            rfl
    · intro rec hrec
      rcases List.mem_cons.mp hrec with rfl | hrec
      · simpa using hkeys
      · obtain ⟨r, hr, rfl⟩ := List.mem_map.mp hrec
        simpa [csvRowCells] using hkeys
    · simp
  · intro s hs
    rw [csvEscapeField, if_neg (by simp [hs])]
  · intro s hs
    rw [csvEscapeField, if_pos hs]

/-- Witness for C6 (amended): under clean keys, rows with an embedded
comma, quote and newline round-trip exactly. -/
theorem downloadCsv_round_trip_witness :
    parseCsv (csvBody [("a", "x,y"), ("b", "pl\"ain")] [[("a", "line1\nline2"), ("b", "z")]]) =
      ["a".data, "b".data] ::
        [["x,y".data, "pl\"ain".data], ["line1\nline2".data, "z".data]] := by
  obtain ⟨h1, h2, h3, h4⟩ := downloadCsv_round_trip
    [("a", "x,y"), ("b", "pl\"ain")] [[("a", "line1\nline2"), ("b", "z")]]
    (by decide) (by decide) (by decide) (by decide)
  rw [h2]
  rfl


end Dashboard

